import Mathlib

/-!
# `hx`: htmx header helpers and the bulk-update example

Shallow embedding of `examples/bulk-update/main.go` (namespace `BulkUpdate`) and of the
package files `request.go` and `response.go` (namespace `Hx`).

* A Go slice `[]Record` is a `List Record`; Go's `int` is `Int`.  The only
  arithmetic on `int` is `i + start` in `insert` and `len(values) >= max` in
  `parseIDs`; both operands are bounded by slice lengths, so no `int`
  wraps around and no reduction modulo `2^64` is needed.
* The `sync.RWMutex` of `storage` is not modelled: every method holds the lock
  for its whole body, and the development is about sequential call sequences.
* `slices.Clone` of a list is the list itself (values are immutable here).
* `strconv.Atoi`, `textproto.CanonicalMIMEHeaderKey` and `http.Header.Set` belong to the Go
  standard library and are modelled; `json.Marshal` and `url.Parse` enter as parameters.
-/

namespace BulkUpdate

/-! ## Data model -/

/-- The Go struct `Record`. -/
structure Record where
  ID : Int
  Name : String
  Active : Bool
  deriving DecidableEq, Repr

/-- The Go struct `storage` (the mutex carries no data). -/
structure storage where
  data : List Record
  deriving DecidableEq, Repr

/-- The zero value of `storage`: `data` is the nil slice. -/
def storage.empty : storage := { data := [] }

/-! ## `storage.insert` -/

/-- The loop `for i := range records { records[i].ID = i + start }`, started at index `i`. -/
def assignIDs (start : Int) : Nat → List Record → List Record
  | _, [] => []
  | i, r :: rs => { r with ID := (i : Int) + start } :: assignIDs start (i + 1) rs

/-- The method `func (s *storage) insert(records []Record)`. -/
def storage.insert (s : storage) (records : List Record) : storage :=
  let start : Int := (s.data.length : Int) + 1
  { data := s.data ++ assignIDs start 0 records }

/-! ## `storage.list`, `storage.count` -/

/-- The method `func (s *storage) list() []Record`. -/
def storage.list (s : storage) : List Record := s.data

/-- The method `func (s *storage) count() int`. -/
def storage.count (s : storage) : Int := (s.data.length : Int)

/-! ## `storage.update` -/

/-- Scan of `slices.IndexFunc` from position `i`: the index of the first element
satisfying `f`, or `-1`. -/
def indexFuncFrom (f : Record → Bool) : Nat → List Record → Int
  | _, [] => -1
  | i, r :: rs => if f r then (i : Int) else indexFuncFrom f (i + 1) rs

/-- The library function `slices.IndexFunc(s, f)`. -/
def indexFunc (s : List Record) (f : Record → Bool) : Int :=
  indexFuncFrom f 0 s

/-- The assignment `data[i].Active = active` for an index `i` within bounds. -/
def setActiveAt (active : Bool) : Nat → List Record → List Record
  | _, [] => []
  | 0, r :: rs => { r with Active := active } :: rs
  | i + 1, r :: rs => r :: setActiveAt active i rs

/-- One iteration of the loop of `update`, for the identifier `id`. -/
def updateStep (active : Bool) (data : List Record) (id : Int) : List Record :=
  let i := indexFunc data (fun record => record.ID == id)
  if i ≥ 0 then setActiveAt active i.toNat data else data

/-- The method `func (s *storage) update(active bool, ids ...int) []Record`: the store
after the call and the returned snapshot. -/
def storage.update (s : storage) (active : Bool) (ids : List Int) : storage × List Record :=
  let data := ids.foldl (updateStep active) s.data
  ({ data := data }, data)

/-! ## `parseIDs` -/

/-- The value of a string of decimal digits, most significant digit first. -/
def digitsValue (cs : List Char) : Nat :=
  cs.foldl (fun n ch => n * 10 + (ch.toNat - '0'.toNat)) 0

/-- Model of Go's `strconv.Atoi` for a 64-bit `int`: an optional sign `+` or `-`, then
one or more decimal digits, denoting a value in `[-2^63, 2^63 - 1]`; `none` stands
for either error of the library (syntax or range). -/
def Atoi (s : String) : Option Int :=
  let cs := s.toList
  let neg := cs.head? == some '-'
  let ds := if cs.head? == some '-' || cs.head? == some '+' then cs.tail else cs
  if ds.isEmpty || !ds.all Char.isDigit then none
  else
    let n := digitsValue ds
    if neg then (if n > 2 ^ 63 then none else some (-(n : Int)))
    else (if n ≥ 2 ^ 63 then none else some (n : Int))

/-- The two errors `parseIDs` builds with `fmt.Errorf`. -/
inductive IDsError where
  | tooManyIDs (max : Int)
  | failedToParseID (idStr : String)
  deriving DecidableEq, Repr

/-- The loop of `parseIDs` over the remaining `values`, with the accumulator `ids`. -/
def parseIDsLoop : List String → List Int → Except IDsError (List Int)
  | [], ids => .ok ids
  | idStr :: rest, ids =>
    match Atoi idStr with
    | none => .error (.failedToParseID idStr)
    | some id => parseIDsLoop rest (ids ++ [id])

/-- The function `func parseIDs(values []string, max int) ([]int, error)`. -/
def parseIDs (values : List String) (max : Int) : Except IDsError (List Int) :=
  if (values.length : Int) ≥ max then .error (.tooManyIDs max)
  else parseIDsLoop values []

/-! ## The server and its bulk-update endpoint -/

/-- The Go struct `server`; the parsed templates are not modelled. -/
structure server where
  storage : storage
  deriving DecidableEq, Repr

/-- What a handler sends: `http.Error(res, body, status)`, or the call
`writePage(res, req, name, status, data)` (template execution is not modelled). -/
inductive Response where
  | error (body : String) (status : Nat)
  | page (name : String) (status : Nat) (data : List Record)
  deriving DecidableEq, Repr

/-- The function `func newServer(records []Record) *server`. -/
def newServer (records : List Record) : server :=
  { storage := storage.empty.insert records }

/-- The method `func (srv *server) setActiveStatus(res, req, active bool)`;
`formIDs` is `req.Form["ids"]`. -/
def server.setActiveStatus (srv : server) (formIDs : List String) (active : Bool) :
    server × Response :=
  match parseIDs formIDs srv.storage.count with
  | .error _ => (srv, .error "failed to parse ids" 400)
  | .ok ids =>
    let (st, list) := srv.storage.update active ids
    ({ storage := st }, .page "rows" 200 list)

/-- The handler `func (srv *server) activate(res, req)`. -/
def server.activate (srv : server) (formIDs : List String) : server × Response :=
  srv.setActiveStatus formIDs true

/-- The handler `func (srv *server) deactivate(res, req)`. -/
def server.deactivate (srv : server) (formIDs : List String) : server × Response :=
  srv.setActiveStatus formIDs false

/-! ## Call sequences -/

/-- A mutating call on the store. -/
inductive Op where
  | insert (records : List Record)
  | update (active : Bool) (ids : List Int)
  deriving DecidableEq, Repr

/-- The store after one call. -/
def storage.apply (s : storage) : Op → storage
  | .insert records => s.insert records
  | .update active ids => (s.update active ids).1

/-- The store after a sequence of calls, in order. -/
def storage.run (s : storage) (ops : List Op) : storage :=
  ops.foldl storage.apply s

/-! ## Reference descriptions used by the theorems -/

/-- Reference description of a whole `update` batch: walking the records in order, a record
gets the flag when its identifier is requested and no earlier record (`seen`) carries it. -/
def markFirst (a : Bool) (ids : List Int) : List Int → List Record → List Record
  | _, [] => []
  | seen, r :: rs =>
    (if r.ID ∈ ids ∧ r.ID ∉ seen then { r with Active := a } else r)
      :: markFirst a ids (r.ID :: seen) rs

/-- The identifiers of `data` are `1, 2, …, len(data)` in this order: the record at
position `i` (0-based) has `ID = i + 1`. -/
def numbered (data : List Record) : Prop :=
  data.map (·.ID) = (List.range' 1 data.length).map Int.ofNat

instance (data : List Record) : Decidable (numbered data) := by
  unfold numbered
  infer_instance

/-- The flag of the most recent `update` call of `ops` whose id list contains `id`,
or `none` when no `update` call of `ops` names `id`. -/
def lastUpdateFlag (id : Int) (ops : List Op) : Option Bool :=
  ops.reverse.findSome? fun op =>
    match op with
    | .update active ids => if id ∈ ids then some active else none
    | .insert _ => none

/-- What `list()` is expected to show of one inserted batch (from its `j`-th record on)
when `k` records were stored before it and the calls `later` follow the insertion. -/
def expectedBatch (k : Nat) (later : List Op) : Nat → List Record → List Record
  | _, [] => []
  | j, r :: rs =>
    { ID := ((k + 1 + j : Nat) : Int), Name := r.Name,
      Active := (lastUpdateFlag ((k + 1 + j : Nat) : Int) later).getD r.Active }
      :: expectedBatch k later (j + 1) rs

/-- What `list()` is expected to show of the records inserted by `ops` when the store
held `k` records before: the batches in insertion order. -/
def expectedList (k : Nat) : List Op → List Record
  | [] => []
  | .insert records :: later =>
    expectedBatch k later 0 records ++ expectedList (k + records.length) later
  | .update _ _ :: later => expectedList k later

end BulkUpdate

namespace Hx

/-! ## `net/http` headers -/

/-- The Go type `http.Header`, a `map[string][]string`: `none` for a key that is not in
the map, `some values` for a key that is (the value list may be empty). -/
abbrev Header := String → Option (List String)

/-- The empty header map. -/
def Header.empty : Header := fun _ => none

/-- Model of `validHeaderFieldByte` of `net/textproto`: the token characters of RFC 7230,
letters, digits and `! # $ % & ' * + - . ^ _ | ~` and the backquote. -/
def validHeaderFieldByte (c : Char) : Bool :=
  c.isAlphanum || [33, 35, 36, 37, 38, 39, 42, 43, 45, 46, 94, 95, 96, 124, 126].contains c.toNat

/-- The canonicalising loop of `net/textproto`: upper case for the first letter and for a
letter after a dash, lower case for every other letter; `upper` tells whether the next
character is to be upper case. -/
def canonicalLoop : Bool → List Char → List Char
  | _, [] => []
  | upper, c :: cs =>
    (if upper then c.toUpper else c.toLower)
      :: canonicalLoop ((if upper then c.toUpper else c.toLower) == '-') cs

/-- Model of `textproto.CanonicalMIMEHeaderKey`: a key with a character that is not a valid
header field byte (a space, a non-ASCII character) is returned unchanged, any other key is
canonicalised. -/
def CanonicalMIMEHeaderKey (s : String) : String :=
  if s.toList.all validHeaderFieldByte then String.mk (canonicalLoop true s.toList) else s

/-- The method `http.Header.Set(key, value)`: the entry of the canonical key becomes the
single value. -/
def Header.Set (h : Header) (key value : String) : Header :=
  fun k => if k = CanonicalMIMEHeaderKey key then some [value] else h k

/-- The part of `http.Request` the package reads. -/
structure Request where
  Header : Header

/-! ## `request.go` -/

def requestHeaderHXBooted : String := CanonicalMIMEHeaderKey "HX-Boosted"
def requestHeaderHXCurrentURL : String := CanonicalMIMEHeaderKey "HX-Current-URL"
def requestHeaderHistoryRestoreRequest : String :=
  CanonicalMIMEHeaderKey "HX-History-Restore-Request"
def requestHeaderHXPrompt : String := CanonicalMIMEHeaderKey "HX-Prompt"
def requestHeaderHXRequest : String := CanonicalMIMEHeaderKey "HX-Request"
def requestHeaderHXTarget : String := CanonicalMIMEHeaderKey "HX-Target"
def requestHeaderHXTriggerName : String := CanonicalMIMEHeaderKey "HX-Trigger-Name"
def requestHeaderHXTriggerID : String := CanonicalMIMEHeaderKey "HX-Trigger"

/-- The function `booleanHeaderIsTrue(h, canonicalName)`. -/
def booleanHeaderIsTrue (h : Header) (canonicalName : String) : Bool :=
  let values := (h canonicalName).getD []
  let isSet := (h canonicalName).isSome
  isSet && values.contains "true"

/-- The function `exactlyOneHeaderValue(h, canonicalName)`. -/
def exactlyOneHeaderValue (h : Header) (canonicalName : String) : String × Bool :=
  let values := (h canonicalName).getD []
  let isSet := (h canonicalName).isSome
  if !isSet || values.length != 1 then ("", false)
  else (values.headD "", true)

/-- The function `IsBoosted(req)`. -/
def IsBoosted (req : Request) : Bool :=
  booleanHeaderIsTrue req.Header requestHeaderHXBooted

/-- The function `CurrentURL(req)`; `urlParse` stands for `url.Parse` of `net/url`, with
results in `U` and errors as messages. -/
def CurrentURL {U : Type} (urlParse : String → Except String U) (req : Request) :
    Except String U :=
  let (value, isSet) := exactlyOneHeaderValue req.Header requestHeaderHXCurrentURL
  if !isSet then
    .error ("header " ++ requestHeaderHXCurrentURL ++ " is not set exactly one time")
  else urlParse value

/-- The function `IsHistoryRestoreRequest(req)`. -/
def IsHistoryRestoreRequest (req : Request) : Bool :=
  booleanHeaderIsTrue req.Header requestHeaderHistoryRestoreRequest

/-- The function `IsRequest(req)`. -/
def IsRequest (req : Request) : Bool :=
  booleanHeaderIsTrue req.Header requestHeaderHXRequest

/-- The function `Prompt(req)`. -/
def Prompt (req : Request) : String × Bool :=
  exactlyOneHeaderValue req.Header requestHeaderHXPrompt

/-- The function `Target(req)`. -/
def Target (req : Request) : String × Bool :=
  exactlyOneHeaderValue req.Header requestHeaderHXTarget

/-- The function `TriggerName(req)`. -/
def TriggerName (req : Request) : String × Bool :=
  exactlyOneHeaderValue req.Header requestHeaderHXTriggerName

/-- The function `TriggerID(req)`. -/
def TriggerID (req : Request) : String × Bool :=
  exactlyOneHeaderValue req.Header requestHeaderHXTriggerID

/-! ## `response.go`: trigger headers

A function taking `res http.ResponseWriter` is a function of the header map
`res.Header()`, returning the map after the call. -/

def responseHeaderTrigger : String := "HX-Trigger"
def responseHeaderTriggerAfterSettle : String := "HX-Trigger-After-Settle"
def responseHeaderTriggerAfterSwap : String := "HX-Trigger-After-Settle"

/-- The function `triggeredEventNames(res, name, events)`; `strings.Join(events, ", ")` is
`", ".intercalate events`. -/
def triggeredEventNames (res : Header) (name : String) (events : List String) : Header :=
  if events.length > 0 then res.Set name (", ".intercalate events) else res

/-- The function `SetTriggerEvents(res, events...)`. -/
def SetTriggerEvents (res : Header) (events : List String) : Header :=
  triggeredEventNames res responseHeaderTrigger events

/-- The function `SetTriggerAfterSettleEvents(res, events...)`. -/
def SetTriggerAfterSettleEvents (res : Header) (events : List String) : Header :=
  triggeredEventNames res responseHeaderTriggerAfterSettle events

/-- The function `SetTriggerAfterSwapEvents(res, events...)`. -/
def SetTriggerAfterSwapEvents (res : Header) (events : List String) : Header :=
  triggeredEventNames res responseHeaderTriggerAfterSwap events

/-! ## `response.go`: events with data

`json.Marshal` belongs to the Go standard library and enters as a parameter: `marshal` is
`json.Marshal(data)` on an event payload of type `α`, `marshalMap` is `json.Marshal(e.data)`
on the event map; both return the JSON text or an error message.

A Go map is a reference: the `data` field of every copy of an `EventsWithData` value points
to the same map, while the `err` field is copied.  The field `data` below holds the contents
of that map.  The values modelled are those made by `NewEventsWithData` and `Set`, whose map
is allocated; on the zero value `EventsWithData{}` the map is nil, reading and `delete` behave
as on an empty map, and a successful `Set` panics. -/

/-- Contents of a `map[string]json.RawMessage`: keys with their JSON texts, no key twice. -/
abbrev EventMap := List (String × String)

/-- The statement `delete(m, key)`. -/
def EventMap.delete (m : EventMap) (key : String) : EventMap :=
  m.filter (fun p => p.1 != key)

/-- The statement `m[key] = value`. -/
def EventMap.set (m : EventMap) (key value : String) : EventMap :=
  (key, value) :: EventMap.delete m key

/-- The expression `m[key]` with its presence flag. -/
def EventMap.get (m : EventMap) (key : String) : Option String :=
  List.lookup key m

/-- The Go struct `EventsWithData`; `err = none` is the nil error. -/
structure EventsWithData where
  data : EventMap
  err : Option String
  deriving DecidableEq, Repr

/-- The method `func (e EventsWithData) Set(event string, data any) EventsWithData`: the
returned value, whose `data` is the map after the call. -/
def EventsWithData.Set {α : Type} (marshal : α → Except String String)
    (e : EventsWithData) (event : String) (data : α) : EventsWithData :=
  if e.err.isSome then e
  else
    match marshal data with
    | .error err => { data := EventMap.delete e.data event, err := some err }
    | .ok buf => { data := EventMap.set e.data event buf, err := e.err }

/-- The function `NewEventsWithData(event, data)`: the result of `e.Set(event, data)` is
discarded (`_ = e.Set(event, data)`) and `e` is returned; `e` shares its map with that
result, and keeps its own `err` field, which the value receiver of `Set` did not touch. -/
def NewEventsWithData {α : Type} (marshal : α → Except String String)
    (event : String) (data : α) : EventsWithData :=
  let e : EventsWithData := { data := [], err := none }
  let discarded := e.Set marshal event data
  { data := discarded.data, err := e.err }

/-- The method `func (e EventsWithData) MarshalJSON() ([]byte, error)`. -/
def EventsWithData.MarshalJSON (marshalMap : EventMap → Except String String)
    (e : EventsWithData) : Except String String :=
  match e.err with
  | some err => .error err
  | none =>
    match marshalMap e.data with
    | .error err => .error err
    | .ok buf => .ok buf

/-- The function `marshalJSONHeaderData(res, header, data)` for `data` an `EventsWithData`:
`json.Marshal(data)` calls `data.MarshalJSON()`, wraps its error in a
`*json.MarshalerError`, and otherwise returns its (already compact) text.  The result is
the header map after the call and the returned error. -/
def marshalJSONHeaderData (marshalMap : EventMap → Except String String)
    (res : Header) (header : String) (data : EventsWithData) : Header × Option String :=
  match data.MarshalJSON marshalMap with
  | .error err =>
    (res, some ("json: error calling MarshalJSON for type hx.EventsWithData: " ++ err))
  | .ok buffer => (res.Set header buffer, none)

/-- The function `SetTriggerWithData(res, data)`. -/
def SetTriggerWithData (marshalMap : EventMap → Except String String)
    (res : Header) (data : EventsWithData) : Header × Option String :=
  marshalJSONHeaderData marshalMap res responseHeaderTrigger data

/-- The function `SetTriggerAfterSettleWithData(res, data)`. -/
def SetTriggerAfterSettleWithData (marshalMap : EventMap → Except String String)
    (res : Header) (data : EventsWithData) : Header × Option String :=
  marshalJSONHeaderData marshalMap res responseHeaderTriggerAfterSettle data

/-- The function `SetTriggerAfterSwapWithData(res, data)`. -/
def SetTriggerAfterSwapWithData (marshalMap : EventMap → Except String String)
    (res : Header) (data : EventsWithData) : Header × Option String :=
  marshalJSONHeaderData marshalMap res responseHeaderTriggerAfterSwap data

/-- Some Go values passed as an event payload: `nil`, a `bool`, and a channel
(`make(chan int)`), a type `encoding/json` does not support. -/
inductive GoValue where
  | null
  | bool (b : Bool)
  | chan
  deriving DecidableEq, Repr

/-- Model of `json.Marshal` on the values of `GoValue`. -/
def jsonMarshal : GoValue → Except String String
  | .null => .ok "null"
  | .bool true => .ok "true"
  | .bool false => .ok "false"
  | .chan => .error "json: unsupported type: chan int"

/-! ## Reference descriptions used by the theorems -/

/-- Two names are letter-casings of one another: same length, and position by position the
same character up to the case of an ASCII letter. -/
def sameLetters (a b : String) : Prop :=
  a.toList.map Char.toLower = b.toList.map Char.toLower

instance (a b : String) : Decidable (sameLetters a b) := by
  unfold sameLetters
  infer_instance

/-- A chain of `Set` calls applied to `e`, first call first. -/
def setChain {α : Type} (marshal : α → Except String String)
    (e : EventsWithData) (calls : List (String × α)) : EventsWithData :=
  calls.foldl (fun acc call => acc.Set marshal call.1 call.2) e

end Hx

namespace BulkUpdate

/-! ## Evaluation on concrete inputs -/

example : Atoi "12" = some 12 ∧ Atoi "-7" = some (-7) ∧ Atoi "+3" = some 3 ∧
    Atoi "007" = some 7 ∧ Atoi "" = none ∧ Atoi "abc" = none ∧ Atoi "1_0" = none ∧
    Atoi "-" = none ∧ Atoi " 1" = none := by decide

example : Atoi "9223372036854775807" = some 9223372036854775807 ∧
    Atoi "9223372036854775808" = none ∧
    Atoi "-9223372036854775808" = some (-9223372036854775808) := by
  simp [Atoi, digitsValue]

example : parseIDs ["1", "2"] 2 = .error (.tooManyIDs 2) ∧
    parseIDs [] 0 = .error (.tooManyIDs 0) ∧
    parseIDs ["1", "abc", "2"] 9 = .error (.failedToParseID "abc") ∧
    parseIDs ["2", "1", "2"] 9 = .ok [2, 1, 2] := ⟨rfl, rfl, rfl, rfl⟩

example :
    (storage.empty.insert [⟨5, "blue", false⟩, ⟨5, "green", true⟩]).insert [⟨0, "red", false⟩]
      = ⟨[⟨1, "blue", false⟩, ⟨2, "green", true⟩, ⟨3, "red", false⟩]⟩ := by decide

example :
    ((⟨[⟨1, "blue", false⟩, ⟨2, "green", false⟩, ⟨3, "red", true⟩]⟩ : storage).update true
      [2, 7, 2]).2 = [⟨1, "blue", false⟩, ⟨2, "green", true⟩, ⟨3, "red", true⟩] := by decide

example :
    expectedList 0
      [.insert [⟨0, "blue", false⟩, ⟨0, "green", false⟩], .update true [2, 3],
        .insert [⟨0, "red", false⟩], .update false [2], .update true [1, 9]]
      = [⟨1, "blue", true⟩, ⟨2, "green", false⟩, ⟨3, "red", false⟩] := by decide

example :
    ((newServer [⟨0, "blue", false⟩, ⟨0, "green", false⟩, ⟨0, "yellow", false⟩,
        ⟨0, "red", false⟩, ⟨0, "purple", false⟩, ⟨0, "pink", false⟩, ⟨0, "teal", false⟩,
        ⟨0, "brown", false⟩, ⟨0, "olive", false⟩]).activate ["1", "2"]).2
      = .page "rows" 200
          [⟨1, "blue", true⟩, ⟨2, "green", true⟩, ⟨3, "yellow", false⟩, ⟨4, "red", false⟩,
            ⟨5, "purple", false⟩, ⟨6, "pink", false⟩, ⟨7, "teal", false⟩,
            ⟨8, "brown", false⟩, ⟨9, "olive", false⟩] := by decide

/-! ## Lemmas on `insert` -/

theorem assignIDs_length (start : Int) (i : Nat) (records : List Record) :
    (assignIDs start i records).length = records.length := by
  induction records generalizing i with
  | nil => rfl
  | cons r rs ih => simp [assignIDs, ih]

theorem assignIDs_getElem? (start : Int) (i j : Nat) (records : List Record) :
    (assignIDs start i records)[j]? =
      (records[j]?).map (fun r => { r with ID := ((i + j : Nat) : Int) + start }) := by
  induction records generalizing i j with
  | nil => simp [assignIDs]
  | cons r rs ih =>
    cases j with
    | zero => simp [assignIDs]
    | succ j =>
      simp only [assignIDs, List.getElem?_cons_succ, ih]
      have : i + 1 + j = i + (j + 1) := by omega
      rw [this]

theorem assignIDs_map_ID (k i : Nat) (records : List Record) :
    (assignIDs ((k : Int) + 1) i records).map (·.ID) =
      (List.range' (k + 1 + i) records.length).map Int.ofNat := by
  induction records generalizing i with
  | nil => simp [assignIDs]
  | cons r rs ih =>
    simp only [assignIDs, List.map_cons, List.length_cons, List.range'_succ]
    rw [ih (i + 1)]
    have h1 : ((i : Int) + ((k : Int) + 1)) = Int.ofNat (k + 1 + i) := by
      simp; omega
    have h2 : k + 1 + (i + 1) = k + 1 + i + 1 := by omega
    rw [h1, h2]

theorem insert_data (s : storage) (records : List Record) :
    (s.insert records).data = s.data ++ assignIDs ((s.data.length : Int) + 1) 0 records := rfl

/-! ## Lemmas on `update` -/

theorem indexFuncFrom_shift (f : Record → Bool) (l : List Record) (i : Nat) :
    -1 ≤ indexFuncFrom f 0 l ∧
      indexFuncFrom f i l =
        if indexFuncFrom f 0 l = -1 then -1 else indexFuncFrom f 0 l + i := by
  induction l generalizing i with
  | nil => simp [indexFuncFrom]
  | cons r rs ih =>
    by_cases hf : f r = true
    · simp [indexFuncFrom, hf]
    · have h0 := (ih 0).1
      have h1 := (ih 1).2
      have hi := (ih (i + 1)).2
      simp only [indexFuncFrom, hf, Bool.false_eq_true, if_false, Nat.zero_add]
      rw [h1, hi]
      by_cases hx : indexFuncFrom f 0 rs = -1
      · simp [hx]
      · simp only [hx, if_false]
        have : ¬ (indexFuncFrom f 0 rs + ((1 : Nat) : Int) = -1) := by omega
        simp only [this, if_false]
        constructor
        · omega
        · push_cast; omega

theorem updateStep_nil (a : Bool) (id : Int) : updateStep a [] id = [] := by
  simp [updateStep, indexFunc, indexFuncFrom]

theorem updateStep_cons (a : Bool) (r : Record) (rs : List Record) (id : Int) :
    updateStep a (r :: rs) id =
      if r.ID = id then { r with Active := a } :: rs else r :: updateStep a rs id := by
  by_cases h : r.ID = id
  · simp [updateStep, indexFunc, indexFuncFrom, h, setActiveAt]
  · have hb : (r.ID == id) = false := by simpa using h
    have h0 := (indexFuncFrom_shift (fun record => record.ID == id) rs 1).1
    have h1 := (indexFuncFrom_shift (fun record => record.ID == id) rs 1).2
    simp only [updateStep, indexFunc, indexFuncFrom, hb, Bool.false_eq_true, if_false, h,
      Nat.zero_add]
    rw [h1]
    by_cases hx : indexFuncFrom (fun record => record.ID == id) 0 rs = -1
    · simp [hx]
    · have hpos : 0 ≤ indexFuncFrom (fun record => record.ID == id) 0 rs := by omega
      obtain ⟨k, hk⟩ := Int.eq_ofNat_of_zero_le hpos
      rw [hk] at hx
      simp only [hk, hx, if_false]
      have e1 : ((k : Int) + ((1 : Nat) : Int)).toNat = k + 1 := by omega
      have e2 : ((k : Int) + ((1 : Nat) : Int)) ≥ 0 := by omega
      have e3 : (k : Int) ≥ 0 := by omega
      simp only [e1, e2, e3, if_true, setActiveAt, Int.toNat_ofNat]

theorem markFirst_nil_ids (a : Bool) (seen : List Int) (d : List Record) :
    markFirst a [] seen d = d := by
  induction d generalizing seen with
  | nil => rfl
  | cons r rs ih => simp [markFirst, ih]

theorem markFirst_cons_seen (a : Bool) (id : Int) (ids seen : List Int) (d : List Record)
    (h : id ∈ seen) : markFirst a (id :: ids) seen d = markFirst a ids seen d := by
  induction d generalizing seen with
  | nil => rfl
  | cons r rs ih =>
    simp only [markFirst]
    rw [ih (r.ID :: seen) (List.mem_cons_of_mem _ h)]
    by_cases hr : r.ID = id
    · have : r.ID ∈ seen := hr ▸ h
      simp [this]
    · simp [hr]

theorem markFirst_updateStep (a : Bool) (id : Int) (ids seen : List Int) (d : List Record)
    (h : id ∉ seen) :
    markFirst a ids seen (updateStep a d id) = markFirst a (id :: ids) seen d := by
  induction d generalizing seen with
  | nil => simp [updateStep_nil, markFirst]
  | cons r rs ih =>
    rw [updateStep_cons]
    by_cases hr : r.ID = id
    · subst hr
      simp only [if_true, markFirst]
      rw [markFirst_cons_seen a r.ID ids (r.ID :: seen) rs (List.mem_cons_self _ _)]
      by_cases hm : r.ID ∈ ids <;> simp [h, hm]
    · have hne : id ∉ r.ID :: seen := by
        simp only [List.mem_cons, not_or]
        exact ⟨fun e => hr e.symm, h⟩
      simp only [hr, if_false, markFirst]
      rw [ih (r.ID :: seen) hne]
      simp [hr]

theorem foldl_updateStep (a : Bool) (ids : List Int) (d : List Record) :
    ids.foldl (updateStep a) d = markFirst a ids [] d := by
  induction ids generalizing d with
  | nil => simp [markFirst_nil_ids]
  | cons id ids ih =>
    rw [List.foldl_cons, ih, markFirst_updateStep a id ids [] d (List.not_mem_nil _)]

theorem markFirst_length (a : Bool) (ids seen : List Int) (d : List Record) :
    (markFirst a ids seen d).length = d.length := by
  induction d generalizing seen with
  | nil => rfl
  | cons r rs ih => simp [markFirst, ih]

theorem markFirst_map_ID (a : Bool) (ids seen : List Int) (d : List Record) :
    (markFirst a ids seen d).map (·.ID) = d.map (·.ID) := by
  induction d generalizing seen with
  | nil => rfl
  | cons r rs ih =>
    simp only [markFirst, List.map_cons, ih]
    by_cases h : r.ID ∈ ids ∧ r.ID ∉ seen <;> simp [h]

theorem markFirst_map_Name (a : Bool) (ids seen : List Int) (d : List Record) :
    (markFirst a ids seen d).map (·.Name) = d.map (·.Name) := by
  induction d generalizing seen with
  | nil => rfl
  | cons r rs ih =>
    simp only [markFirst, List.map_cons, ih]
    by_cases h : r.ID ∈ ids ∧ r.ID ∉ seen <;> simp [h]

theorem markFirst_getElem? (a : Bool) (ids seen : List Int) (d : List Record) (i : Nat) :
    (markFirst a ids seen d)[i]? =
      (d[i]?).map (fun r =>
        if r.ID ∈ ids ∧ r.ID ∉ seen ∧ r.ID ∉ (d.take i).map (·.ID)
        then { r with Active := a } else r) := by
  induction d generalizing seen i with
  | nil => simp [markFirst]
  | cons r rs ih =>
    cases i with
    | zero => simp [markFirst]
    | succ i =>
      simp only [markFirst, List.getElem?_cons_succ, ih, List.take_succ_cons, List.map_cons,
        List.mem_cons, not_or]
      congr 1
      funext x
      by_cases h1 : x.ID ∈ ids <;> by_cases h2 : x.ID = r.ID <;> by_cases h3 : x.ID ∈ seen <;>
        simp [h1, h2, h3]

theorem markFirst_no_match (a : Bool) (ids seen : List Int) (d : List Record)
    (h : ∀ r ∈ d, r.ID ∉ ids) : markFirst a ids seen d = d := by
  induction d generalizing seen with
  | nil => rfl
  | cons r rs ih =>
    have hr : r.ID ∉ ids := h r (List.mem_cons_self _ _)
    simp only [markFirst, hr, false_and, if_false]
    rw [ih _ (fun x hx => h x (List.mem_cons_of_mem _ hx))]

theorem markFirst_of_nodup (a : Bool) (ids seen : List Int) (d : List Record)
    (hnd : (d.map (·.ID)).Nodup) (hs : ∀ r ∈ d, r.ID ∉ seen) :
    markFirst a ids seen d = d.map (fun r => if r.ID ∈ ids then { r with Active := a } else r) := by
  induction d generalizing seen with
  | nil => rfl
  | cons r rs ih =>
    have hr : r.ID ∉ seen := hs r (List.mem_cons_self _ _)
    rw [List.map_cons, List.nodup_cons] at hnd
    simp only [markFirst, hr, not_false_eq_true, and_true, List.map_cons]
    rw [ih (r.ID :: seen) hnd.2]
    intro x hx
    simp only [List.mem_cons, not_or]
    refine ⟨?_, hs x (List.mem_cons_of_mem _ hx)⟩
    intro e
    exact hnd.1 (e ▸ List.mem_map_of_mem (·.ID) hx)

theorem markFirst_markFirst (a b : Bool) (ids seen : List Int) (d : List Record) :
    markFirst b ids seen (markFirst a ids seen d) = markFirst b ids seen d := by
  induction d generalizing seen with
  | nil => rfl
  | cons r rs ih =>
    by_cases h : r.ID ∈ ids ∧ r.ID ∉ seen
    · simp [markFirst, h, ih]
    · simp [markFirst, h, ih]

theorem update_data (s : storage) (a : Bool) (ids : List Int) :
    (s.update a ids).1.data = markFirst a ids [] s.data := by
  simp [storage.update, foldl_updateStep]

theorem update_snapshot (s : storage) (a : Bool) (ids : List Int) :
    (s.update a ids).2 = (s.update a ids).1.list := rfl

/-! ## The numbering invariant -/

theorem numbered_nil : numbered [] := by simp [numbered]

theorem numbered_insert (s : storage) (records : List Record) (h : numbered s.data) :
    numbered (s.insert records).data := by
  unfold numbered at *
  rw [insert_data, List.map_append, h, List.length_append, assignIDs_length,
    assignIDs_map_ID, ← List.map_append]
  congr 1
  rw [Nat.add_zero, Nat.add_comm s.data.length 1, List.range'_append_1,
    Nat.add_comm records.length]

theorem numbered_update (s : storage) (a : Bool) (ids : List Int) (h : numbered s.data) :
    numbered (s.update a ids).1.data := by
  unfold numbered at *
  rw [update_data, markFirst_map_ID, markFirst_length, h]

theorem numbered_apply (s : storage) (op : Op) (h : numbered s.data) :
    numbered (s.apply op).data := by
  cases op with
  | insert records => exact numbered_insert s records h
  | update a ids => exact numbered_update s a ids h

theorem run_cons (s : storage) (op : Op) (ops : List Op) :
    s.run (op :: ops) = (s.apply op).run ops := rfl

theorem numbered_run (s : storage) (ops : List Op) (h : numbered s.data) :
    numbered (s.run ops).data := by
  induction ops generalizing s with
  | nil => exact h
  | cons op ops ih => exact ih _ (numbered_apply s op h)

theorem numbered_nodup (d : List Record) (h : numbered d) : (d.map (·.ID)).Nodup := by
  rw [h]
  exact (List.nodup_range' 1 d.length).map Int.ofNat_injective

theorem numbered_getElem? (d : List Record) (h : numbered d) (i : Nat) (r : Record)
    (hr : d[i]? = some r) : r.ID = (i : Int) + 1 := by
  have h1 : (d.map (·.ID))[i]? = some r.ID := by simp [hr]
  rw [h] at h1
  simp only [List.getElem?_map, List.getElem?_range', Option.map_eq_some'] at h1
  obtain ⟨x, hx, hx2⟩ := h1
  have hi : i < d.length := by
    by_contra hc
    rw [List.getElem?_eq_none (Nat.le_of_not_lt hc)] at hr
    cases hr
  rw [List.getElem?_range' 1 1 hi] at hx
  rw [← hx2, ← Option.some.inj hx]
  simp; omega

theorem update_of_numbered (s : storage) (a : Bool) (ids : List Int) (h : numbered s.data) :
    (s.update a ids).1.data =
      s.data.map (fun r => if r.ID ∈ ids then { r with Active := a } else r) := by
  rw [update_data]
  exact markFirst_of_nodup a ids [] s.data (numbered_nodup _ h) (fun _ _ => List.not_mem_nil _)

theorem run_append (s : storage) (ops more : List Op) :
    s.run (ops ++ more) = (s.run ops).run more := by
  simp [storage.run, List.foldl_append]

theorem apply_ids_kept (s : storage) (op : Op) :
    s.data.map (·.ID) <+: (s.apply op).data.map (·.ID) := by
  cases op with
  | insert records =>
    simp only [storage.apply, insert_data, List.map_append]
    exact List.prefix_append _ _
  | update a ids =>
    simp only [storage.apply, update_data, markFirst_map_ID]
    exact List.prefix_refl _

theorem run_ids_kept (s : storage) (ops : List Op) :
    s.data.map (·.ID) <+: (s.run ops).data.map (·.ID) := by
  induction ops generalizing s with
  | nil => exact List.prefix_refl _
  | cons op ops ih => exact (apply_ids_kept s op).trans (ih (s.apply op))

theorem numbered_reachable (ops : List Op) : numbered (storage.empty.run ops).data :=
  numbered_run storage.empty ops numbered_nil

/-! ## The store: claims C1 to C4 -/

/-- C1: in a store built from the empty store by `insert` and `update` calls, after
`update(a, ids)` every stored record whose ID occurs in `ids` has `Active = a`. -/
theorem update_sets_requested (ops : List Op) (a : Bool) (ids : List Int) (r : Record)
    (hr : r ∈ ((storage.empty.run ops).update a ids).1.data) (hid : r.ID ∈ ids) :
    r.Active = a := by
  rw [update_of_numbered _ a ids (numbered_reachable ops), List.mem_map] at hr
  obtain ⟨r0, _, h0⟩ := hr
  by_cases h : r0.ID ∈ ids
  · rw [if_pos h] at h0
    rw [← h0]
  · rw [if_neg h] at h0
    rw [← h0] at hid
    exact absurd hid h

/-- Instance of `update_sets_requested` on a store built by one `insert` and one `update`. -/
theorem update_sets_requested_witness :
    (⟨2, "green", true⟩ : Record) ∈
        ((storage.empty.run
          [.insert [⟨0, "blue", false⟩, ⟨0, "green", false⟩], .update false [1]]).update
            true [2, 5]).1.data ∧
      (2 : Int) ∈ [2, 5] ∧ (⟨2, "green", true⟩ : Record).Active = true :=
  ⟨by decide, by decide,
    update_sets_requested
      [.insert [⟨0, "blue", false⟩, ⟨0, "green", false⟩], .update false [1]] true [2, 5]
      ⟨2, "green", true⟩ (by decide) (by decide)⟩

/-- C2: `update(a, ids)` keeps the number and order of the records, every ID and Name, and
the Active flag of every record whose ID is not in `ids`; a record that changes has its ID
in `ids` and differs only by `Active = a`; when no stored record has an ID in `ids` the
store is unchanged and the snapshot is the old contents (the call has no error result). -/
theorem update_frame (s : storage) (a : Bool) (ids : List Int) :
    (s.update a ids).1.data.length = s.data.length ∧
    (∀ (i : Nat) (r : Record), s.data[i]? = some r →
      ∃ r', (s.update a ids).1.data[i]? = some r' ∧ r'.ID = r.ID ∧ r'.Name = r.Name ∧
        (r.ID ∉ ids → r'.Active = r.Active) ∧
        (r' = r ∨ (r.ID ∈ ids ∧ r' = { r with Active := a }))) ∧
    ((∀ r ∈ s.data, r.ID ∉ ids) → (s.update a ids).1 = s ∧ (s.update a ids).2 = s.data) := by
  refine ⟨?_, ?_, ?_⟩
  · rw [update_data, markFirst_length]
  · intro i r hr
    rw [update_data, markFirst_getElem?, hr]
    by_cases h : r.ID ∈ ids ∧ r.ID ∉ ([] : List Int) ∧ r.ID ∉ (s.data.take i).map (·.ID)
    · exact ⟨{ r with Active := a }, by simp only [Option.map_some', if_pos h], rfl, rfl,
        fun hn => absurd h.1 hn, Or.inr ⟨h.1, rfl⟩⟩
    · exact ⟨r, by simp only [Option.map_some', if_neg h], rfl, rfl, fun _ => rfl, Or.inl rfl⟩
  · intro h
    have hd : (s.update a ids).1.data = s.data := by
      rw [update_data, markFirst_no_match a ids [] s.data h]
    constructor
    · cases s
      simp only [storage.update] at hd ⊢
      rw [hd]
    · exact hd

/-- C3: on a store of `k` records, `insert` of `n` records keeps the first `k` records and
appends the batch in the given order, the `j`-th appended record having ID `k + 1 + j` and
the Name and Active of the `j`-th input record (whatever ID it carried); the new IDs are
strictly increasing and start at `k + 1`. -/
theorem insert_spec (s : storage) (records : List Record) :
    (s.insert records).data.length = s.data.length + records.length ∧
    (s.insert records).data.take s.data.length = s.data ∧
    (∀ (j : Nat) (r : Record), records[j]? = some r →
      (s.insert records).data[s.data.length + j]? =
        some { ID := (s.data.length : Int) + 1 + (j : Int), Name := r.Name,
               Active := r.Active }) ∧
    ((s.insert records).data.drop s.data.length).map (·.ID) =
      (List.range' (s.data.length + 1) records.length).map Int.ofNat ∧
    List.Pairwise (· < ·) (((s.insert records).data.drop s.data.length).map (·.ID)) := by
  have hids : ((s.insert records).data.drop s.data.length).map (·.ID) =
      (List.range' (s.data.length + 1) records.length).map Int.ofNat := by
    rw [insert_data, List.drop_left, assignIDs_map_ID, Nat.add_zero]
  refine ⟨?_, ?_, ?_, hids, ?_⟩
  · rw [insert_data, List.length_append, assignIDs_length]
  · rw [insert_data, List.take_left]
  · intro j r hr
    rw [insert_data, List.getElem?_append_right (Nat.le_add_right _ _), Nat.add_sub_cancel_left,
      assignIDs_getElem?, hr]
    simp only [Option.map_some', Nat.zero_add, Option.some.injEq, Record.mk.injEq, and_true]
    omega
  · rw [hids]
    exact (List.pairwise_lt_range' (s.data.length + 1) records.length).map Int.ofNat
      (fun x y hxy => Int.ofNat_lt.2 hxy)

/-- C4: in every store reached from the empty store by `insert` and `update` calls the
record at position `i` (0-based) has ID `i + 1`, the IDs are pairwise distinct, and any
further calls keep the IDs already assigned, in place, as a prefix of the new ID list. -/
theorem reachable_ids_unique (ops : List Op) :
    (∀ (i : Nat) (r : Record), (storage.empty.run ops).data[i]? = some r → r.ID = (i : Int) + 1) ∧
    ((storage.empty.run ops).data.map (·.ID)).Nodup ∧
    (∀ more : List Op,
      (storage.empty.run ops).data.map (·.ID) <+:
        (storage.empty.run (ops ++ more)).data.map (·.ID)) := by
  refine ⟨?_, ?_, ?_⟩
  · intro i r hr
    exact numbered_getElem? _ (numbered_reachable ops) i r hr
  · exact numbered_nodup _ (numbered_reachable ops)
  · intro more
    rw [run_append]
    exact run_ids_kept _ more

/-! ## Lemmas on `parseIDs` -/

theorem parseIDsLoop_ok_iff (values : List String) (acc ids : List Int) :
    parseIDsLoop values acc = .ok ids ↔
      ∃ tail, values.map Atoi = tail.map some ∧ ids = acc ++ tail := by
  induction values generalizing acc with
  | nil =>
    simp only [parseIDsLoop, Except.ok.injEq, List.map_nil]
    constructor
    · intro h
      exact ⟨[], rfl, by simp [h]⟩
    · rintro ⟨tail, ht, hi⟩
      have : tail = [] := by
        cases tail with
        | nil => rfl
        | cons x xs => simp at ht
      simp [hi, this]
  | cons v vs ih =>
    cases hv : Atoi v with
    | none =>
      simp only [parseIDsLoop, hv, List.map_cons]
      constructor
      · intro h; cases h
      · rintro ⟨tail, ht, _⟩
        cases tail with
        | nil => simp at ht
        | cons x xs => simp at ht
    | some id =>
      simp only [parseIDsLoop, hv, List.map_cons]
      rw [ih]
      constructor
      · rintro ⟨t, ht, hi⟩
        exact ⟨id :: t, by simp [ht], by simp [hi]⟩
      · rintro ⟨tail, ht, hi⟩
        cases tail with
        | nil => simp at ht
        | cons x xs =>
          simp only [List.map_cons, List.cons.injEq, Option.some.injEq] at ht
          exact ⟨xs, ht.2, by simp [hi, ht.1]⟩

theorem parseIDsLoop_error (values : List String) (acc : List Int) (e : IDsError)
    (h : parseIDsLoop values acc = .error e) :
    ∃ pre v post, values = pre ++ v :: post ∧ (∀ u ∈ pre, (Atoi u).isSome = true) ∧
      Atoi v = none ∧ e = .failedToParseID v := by
  induction values generalizing acc with
  | nil => simp [parseIDsLoop] at h
  | cons v vs ih =>
    cases hv : Atoi v with
    | none =>
      simp only [parseIDsLoop, hv, Except.error.injEq] at h
      exact ⟨[], v, vs, rfl, by simp, hv, h.symm⟩
    | some id =>
      simp only [parseIDsLoop, hv] at h
      obtain ⟨pre, w, post, h1, h2, h3, h4⟩ := ih _ h
      refine ⟨v :: pre, w, post, by simp [h1], ?_, h3, h4⟩
      intro u hu
      rcases List.mem_cons.1 hu with rfl | hu
      · simp [hv]
      · exact h2 u hu

theorem parseIDs_of_lt (values : List String) (max : Int) (h : (values.length : Int) < max) :
    parseIDs values max = parseIDsLoop values [] := by
  have : ¬ ((values.length : Int) ≥ max) := by omega
  simp [parseIDs, this]

theorem parseIDs_of_ge (values : List String) (max : Int) (h : (values.length : Int) ≥ max) :
    parseIDs values max = .error (.tooManyIDs max) := by
  simp [parseIDs, h]

theorem map_Atoi_of_all_some (values : List String)
    (h : ∀ v ∈ values, (Atoi v).isSome = true) :
    ∃ ids : List Int, values.map Atoi = ids.map some := by
  induction values with
  | nil => exact ⟨[], rfl⟩
  | cons v vs ih =>
    obtain ⟨t, ht⟩ := ih (fun u hu => h u (List.mem_cons_of_mem _ hu))
    obtain ⟨id, hid⟩ := Option.isSome_iff_exists.1 (h v (List.mem_cons_self _ _))
    exact ⟨id :: t, by simp [hid, ht]⟩

theorem parseIDs_ok_iff (values : List String) (max : Int) (h : (values.length : Int) < max)
    (ids : List Int) : parseIDs values max = .ok ids ↔ values.map Atoi = ids.map some := by
  rw [parseIDs_of_lt values max h, parseIDsLoop_ok_iff]
  constructor
  · rintro ⟨tail, ht, hi⟩
    simpa [hi] using ht
  · intro hm
    exact ⟨ids, hm, by simp⟩

theorem all_some_of_map_Atoi (values : List String) (ids : List Int)
    (hm : values.map Atoi = ids.map some) : ∀ v ∈ values, (Atoi v).isSome = true := by
  intro v hv
  have : Atoi v ∈ values.map Atoi := List.mem_map_of_mem Atoi hv
  rw [hm, List.mem_map] at this
  obtain ⟨x, _, hx⟩ := this
  simp [← hx]

/-! ## The endpoint: claims C5 to C7 -/

/-- C5: `parseIDs(values, max)` fails with the too-many-ids error exactly when
`len(values) >= max`, whatever the strings are; the error then carries `max`. -/
theorem parseIDs_tooMany_iff (values : List String) (max : Int) :
    ((∃ m, parseIDs values max = .error (.tooManyIDs m)) ↔ (values.length : Int) ≥ max) ∧
    (parseIDs values max = .error (.tooManyIDs max) ↔ (values.length : Int) ≥ max) := by
  have key : ∀ m, parseIDs values max = .error (.tooManyIDs m) → (values.length : Int) ≥ max := by
    intro m hm
    by_contra hc
    rw [parseIDs_of_lt values max (by omega)] at hm
    obtain ⟨_, _, _, _, _, _, h4⟩ := parseIDsLoop_error _ _ _ hm
    cases h4
  exact ⟨⟨fun ⟨m, hm⟩ => key m hm, fun h => ⟨max, parseIDs_of_ge values max h⟩⟩,
    ⟨key max, parseIDs_of_ge values max⟩⟩

/-- C6: when `len(values) < max`, `parseIDs` returns the list `ids` exactly when the
strings parse, one by one and in order, to the elements of `ids` (same length, duplicates
kept); it succeeds exactly when every string parses; and when some string does not parse
the result is the parse error of the first such string, with no identifier list. -/
theorem parseIDs_spec (values : List String) (max : Int) (h : (values.length : Int) < max) :
    (∀ ids, parseIDs values max = .ok ids ↔ values.map Atoi = ids.map some) ∧
    ((∃ ids, parseIDs values max = .ok ids) ↔ ∀ v ∈ values, (Atoi v).isSome = true) ∧
    (∀ ids, parseIDs values max = .ok ids →
      ids.length = values.length ∧
        ∀ (i : Nat) (v : String), values[i]? = some v → Atoi v = ids[i]?) ∧
    ((∃ v ∈ values, Atoi v = none) →
      ∃ pre v post, values = pre ++ v :: post ∧ (∀ u ∈ pre, (Atoi u).isSome = true) ∧
        Atoi v = none ∧ parseIDs values max = .error (.failedToParseID v)) := by
  have h1 : ∀ ids, parseIDs values max = .ok ids ↔ values.map Atoi = ids.map some :=
    parseIDs_ok_iff values max h
  refine ⟨h1, ?_, ?_, ?_⟩
  · constructor
    · rintro ⟨ids, hids⟩
      exact all_some_of_map_Atoi values ids ((h1 ids).1 hids)
    · intro hall
      obtain ⟨ids, hids⟩ := map_Atoi_of_all_some values hall
      exact ⟨ids, (h1 ids).2 hids⟩
  · intro ids hids
    have hm := (h1 ids).1 hids
    constructor
    · have := congrArg List.length hm
      simpa using this.symm
    · intro i v hv
      have h2 : (values.map Atoi)[i]? = some (Atoi v) := by simp [hv]
      rw [hm, List.getElem?_map] at h2
      cases hi : ids[i]? with
      | none => simp [hi] at h2
      | some x =>
        simp only [hi, Option.map_some', Option.some.injEq] at h2
        exact h2.symm
  · rintro ⟨v, hv, hnone⟩
    cases hres : parseIDs values max with
    | ok ids =>
      have hm := (h1 ids).1 hres
      have : Atoi v ∈ values.map Atoi := List.mem_map_of_mem Atoi hv
      rw [hm, hnone, List.mem_map] at this
      obtain ⟨x, _, hx⟩ := this
      cases hx
    | error e =>
      rw [parseIDs_of_lt values max h] at hres
      obtain ⟨pre, w, post, e1, e2, e3, e4⟩ := parseIDsLoop_error _ _ _ hres
      exact ⟨pre, w, post, e1, e2, e3, by rw [e4]⟩

/-- Instance of `parseIDs_spec`: three strings against `max = 4`, a duplicate kept. -/
theorem parseIDs_spec_witness :
    ((["3", "-1", "3"] : List String).length : Int) < 4 ∧
      parseIDs ["3", "-1", "3"] 4 = .ok [3, -1, 3] :=
  ⟨by decide,
    ((parseIDs_spec ["3", "-1", "3"] 4 (by decide)).1 [3, -1, 3]).2 (by decide)⟩

/-- C7: the bulk-update endpoint rejects a request whose number of ids is at least the
record count, or one of whose id strings does not parse, with the 400 response and the
server (hence the store) unchanged; and whenever it answers with an error, the store after
the request equals the store before it and one of these two causes holds. -/
theorem setActiveStatus_reject (srv : server) (formIDs : List String) (active : Bool) :
    (((formIDs.length : Int) ≥ srv.storage.count ∨ ∃ v ∈ formIDs, Atoi v = none) →
      srv.setActiveStatus formIDs active = (srv, .error "failed to parse ids" 400)) ∧
    (∀ body status, (srv.setActiveStatus formIDs active).2 = .error body status →
      (srv.setActiveStatus formIDs active).1 = srv ∧
        ((formIDs.length : Int) ≥ srv.storage.count ∨ ∃ v ∈ formIDs, Atoi v = none)) := by
  constructor
  · intro hc
    cases hres : parseIDs formIDs srv.storage.count with
    | error e => simp [server.setActiveStatus, hres]
    | ok ids =>
      exfalso
      rcases hc with hge | ⟨v, hv, hnone⟩
      · rw [parseIDs_of_ge _ _ hge] at hres
        cases hres
      · by_cases hlt : (formIDs.length : Int) < srv.storage.count
        · have hall := all_some_of_map_Atoi formIDs ids
            ((parseIDs_ok_iff formIDs _ hlt ids).1 hres) v hv
          simp [hnone] at hall
        · rw [parseIDs_of_ge _ _ (by omega)] at hres
          cases hres
  · intro body status hresp
    cases hres : parseIDs formIDs srv.storage.count with
    | ok ids => simp [server.setActiveStatus, hres] at hresp
    | error e =>
      refine ⟨by simp [server.setActiveStatus, hres], ?_⟩
      by_cases hlt : (formIDs.length : Int) < srv.storage.count
      · right
        rw [parseIDs_of_lt _ _ hlt] at hres
        obtain ⟨pre, w, post, e1, _, e3, _⟩ := parseIDsLoop_error _ _ _ hres
        exact ⟨w, by simp [e1], e3⟩
      · left; omega

/-! ## Lemmas on call sequences -/

theorem lastUpdateFlag_nil (id : Int) : lastUpdateFlag id [] = none := rfl

theorem lastUpdateFlag_cons_insert (id : Int) (records : List Record) (ops : List Op) :
    lastUpdateFlag id (.insert records :: ops) = lastUpdateFlag id ops := by
  simp [lastUpdateFlag, List.findSome?_append]

theorem lastUpdateFlag_cons_update (id : Int) (a : Bool) (ids : List Int) (ops : List Op) :
    lastUpdateFlag id (.update a ids :: ops) =
      (lastUpdateFlag id ops).or (if id ∈ ids then some a else none) := by
  simp only [lastUpdateFlag, List.reverse_cons, List.findSome?_append]
  congr 1
  by_cases h : id ∈ ids <;> simp [List.findSome?, h]

theorem assignIDs_map_expected (k j : Nat) (records : List Record) (later : List Op) :
    (assignIDs ((k : Int) + 1) j records).map
        (fun r => { r with Active := (lastUpdateFlag r.ID later).getD r.Active }) =
      expectedBatch k later j records := by
  induction records generalizing j with
  | nil => rfl
  | cons r rs ih =>
    have e : (j : Int) + ((k : Int) + 1) = ((k + 1 + j : Nat) : Int) := by push_cast; omega
    simp only [assignIDs, List.map_cons, expectedBatch, ih, e]

theorem run_data_of_numbered (s : storage) (ops : List Op) (h : numbered s.data) :
    (s.run ops).data =
      s.data.map (fun r => { r with Active := (lastUpdateFlag r.ID ops).getD r.Active }) ++
        expectedList s.data.length ops := by
  induction ops generalizing s with
  | nil =>
    simp only [storage.run, List.foldl_nil, lastUpdateFlag_nil, Option.getD_none, expectedList,
      List.append_nil]
    exact (List.map_id _).symm
  | cons op ops ih =>
    rw [run_cons, ih _ (numbered_apply s op h)]
    cases op with
    | insert records =>
      simp only [storage.apply, insert_data, List.map_append, List.length_append,
        assignIDs_length, assignIDs_map_expected, Nat.zero_add, lastUpdateFlag_cons_insert,
        expectedList, List.append_assoc]
    | update a ids =>
      simp only [storage.apply, update_of_numbered s a ids h, List.map_map, List.length_map,
        expectedList, lastUpdateFlag_cons_update]
      congr 1
      apply List.map_congr_left
      intro r _
      by_cases hm : r.ID ∈ ids <;> cases hl : lastUpdateFlag r.ID ops <;>
        simp [hm, hl]

theorem update_eq (s : storage) (a : Bool) (ids : List Int) :
    s.update a ids = ({ data := markFirst a ids [] s.data }, markFirst a ids [] s.data) := by
  simp [storage.update, foldl_updateStep]

theorem newServer_data (records : List Record) :
    (newServer records).storage.data = assignIDs 1 0 records := by
  simp [newServer, storage.insert, storage.empty]

theorem newServer_numbered (records : List Record) :
    numbered (newServer records).storage.data :=
  numbered_insert storage.empty records numbered_nil

theorem mem_of_map_Atoi (values : List String) (ids : List Int)
    (hm : values.map Atoi = ids.map some) (x : Int) :
    x ∈ ids ↔ ∃ v ∈ values, Atoi v = some x := by
  have h1 : some x ∈ ids.map some ↔ x ∈ ids := by simp
  rw [← h1, ← hm, List.mem_map]

/-! ## Claims C8 to C10 -/

/-- C8: on a server seeded with `n` inactive records, the activate endpoint accepts every
list of fewer than `n` id strings that all parse: it answers with the page `rows`, status
200, and a snapshot equal to what `list()` returns afterwards; the snapshot has the `n`
records in insertion order with IDs `1..n` and the seeded names, and a record is active in
it exactly when one of the submitted strings denotes its ID. -/
theorem activate_seeded (records : List Record) (values : List String)
    (hin : ∀ r ∈ records, r.Active = false)
    (hlen : values.length < records.length)
    (hdec : ∀ v ∈ values, (Atoi v).isSome = true) :
    ∃ list : List Record,
      ((newServer records).activate values).2 = .page "rows" 200 list ∧
      ((newServer records).activate values).1.storage.list = list ∧
      list.length = records.length ∧
      ∀ (i : Nat) (r : Record), records[i]? = some r →
        ∃ r', list[i]? = some r' ∧ r'.ID = (i : Int) + 1 ∧ r'.Name = r.Name ∧
          (r'.Active = true ↔ ∃ v ∈ values, Atoi v = some r'.ID) := by
  obtain ⟨ids, hids⟩ := map_Atoi_of_all_some values hdec
  have hcount : (newServer records).storage.count = (records.length : Int) := by
    simp [storage.count, newServer_data, assignIDs_length]
  have hparse : parseIDs values (newServer records).storage.count = .ok ids := by
    rw [hcount]
    exact (parseIDs_ok_iff values _ (by omega) ids).2 hids
  have hupd := update_of_numbered (newServer records).storage true ids
    (newServer_numbered records)
  refine ⟨((newServer records).storage.update true ids).1.data, ?_, ?_, ?_, ?_⟩
  · simp only [server.activate, server.setActiveStatus, hparse]
    rfl
  · simp only [server.activate, server.setActiveStatus, hparse]
    rfl
  · rw [hupd, List.length_map, newServer_data, assignIDs_length]
  · intro i r hr
    have hact : r.Active = false := hin r (List.getElem?_mem hr)
    rw [hupd, List.getElem?_map, newServer_data, assignIDs_getElem?, hr]
    simp only [Option.map_some', Nat.zero_add]
    by_cases hm : ((i : Int) + 1) ∈ ids
    · refine ⟨_, rfl, ?_, ?_, ?_⟩
      · simp only [hm, if_true]
      · simp only [hm, if_true]
      · simp only [hm, if_true, true_iff]
        exact (mem_of_map_Atoi values ids hids _).1 hm
    · refine ⟨_, rfl, ?_, ?_, ?_⟩
      · simp only [hm, if_false]
      · simp only [hm, if_false]
      · simp only [hm, if_false, hact, Bool.false_eq_true, false_iff]
        intro hex
        exact hm ((mem_of_map_Atoi values ids hids _).2 hex)

/-- Instance of `activate_seeded`: the nine records seeded by `main`, ids `1` and `2`. -/
theorem activate_seeded_witness :
    (∀ r ∈ ([⟨0, "blue", false⟩, ⟨0, "green", false⟩, ⟨0, "yellow", false⟩,
        ⟨0, "red", false⟩, ⟨0, "purple", false⟩, ⟨0, "pink", false⟩, ⟨0, "teal", false⟩,
        ⟨0, "brown", false⟩, ⟨0, "olive", false⟩] : List Record), r.Active = false) ∧
    ∃ list : List Record,
      ((newServer [⟨0, "blue", false⟩, ⟨0, "green", false⟩, ⟨0, "yellow", false⟩,
        ⟨0, "red", false⟩, ⟨0, "purple", false⟩, ⟨0, "pink", false⟩, ⟨0, "teal", false⟩,
        ⟨0, "brown", false⟩, ⟨0, "olive", false⟩]).activate ["1", "2"]).2
          = .page "rows" 200 list ∧
      list.length = 9 :=
  have h := activate_seeded
    [⟨0, "blue", false⟩, ⟨0, "green", false⟩, ⟨0, "yellow", false⟩,
      ⟨0, "red", false⟩, ⟨0, "purple", false⟩, ⟨0, "pink", false⟩, ⟨0, "teal", false⟩,
      ⟨0, "brown", false⟩, ⟨0, "olive", false⟩] ["1", "2"]
    (by decide) (by decide) (by decide)
  ⟨by decide, h.elim fun list hl => ⟨list, hl.1, hl.2.2.1⟩⟩

/-- C9: after any sequence of `insert` and `update` calls on the empty store, `list()`
returns the inserted records in insertion order, each with the Name it was inserted with
(and ID = its position + 1), and with Active equal to the flag of the most recent `update`
issued after its insertion whose id list contains its ID, or to the Active value it was
inserted with when there is no such `update`. -/
theorem list_after_run (ops : List Op) :
    (storage.empty.run ops).list = expectedList 0 ops := by
  have h := run_data_of_numbered storage.empty ops numbered_nil
  simpa [storage.list, storage.empty] using h

/-- C10: for every store and id list, `update(true, ids)` followed by `update(false, ids)`
gives the same store and snapshot as `update(false, ids)` alone, and symmetrically with the
flags swapped; afterwards the first record carrying an ID of `ids` is inactive, and in a
store built from the empty store every record whose ID is in `ids` is inactive. -/
theorem update_last_wins (s : storage) (ids : List Int) :
    (s.update true ids).1.update false ids = s.update false ids ∧
    (s.update false ids).1.update true ids = s.update true ids ∧
    (∀ (i : Nat) (r : Record), s.data[i]? = some r → r.ID ∈ ids →
      r.ID ∉ (s.data.take i).map (·.ID) →
      ((s.update true ids).1.update false ids).1.data[i]? = some { r with Active := false }) ∧
    (∀ ops : List Op, s = storage.empty.run ops →
      ∀ r ∈ ((s.update true ids).1.update false ids).1.data, r.ID ∈ ids → r.Active = false) := by
  have e1 : (s.update true ids).1.update false ids = s.update false ids := by
    rw [update_eq (s.update true ids).1, update_eq s false, update_data, markFirst_markFirst]
  have e2 : (s.update false ids).1.update true ids = s.update true ids := by
    rw [update_eq (s.update false ids).1, update_eq s true, update_data, markFirst_markFirst]
  refine ⟨e1, e2, ?_, ?_⟩
  · intro i r hr hid hfirst
    have hc : r.ID ∈ ids ∧ r.ID ∉ ([] : List Int) ∧ r.ID ∉ (s.data.take i).map (·.ID) :=
      ⟨hid, List.not_mem_nil _, hfirst⟩
    rw [e1, update_data, markFirst_getElem?, hr]
    simp only [Option.map_some', if_pos hc]
  · intro ops hs r hr hid
    rw [e1, hs, update_of_numbered _ false ids (numbered_reachable ops), List.mem_map] at hr
    obtain ⟨r0, _, h0⟩ := hr
    by_cases h : r0.ID ∈ ids
    · rw [if_pos h] at h0
      rw [← h0]
    · rw [if_neg h] at h0
      rw [← h0] at hid
      exact absurd hid h

/-! ## Claim C11 -/

theorem markFirst_congr (a : Bool) (ids1 ids2 seen : List Int) (d : List Record)
    (h : ∀ x, x ∈ ids1 ↔ x ∈ ids2) : markFirst a ids1 seen d = markFirst a ids2 seen d := by
  induction d generalizing seen with
  | nil => rfl
  | cons r rs ih => simp only [markFirst, h r.ID, ih]

/-- C11: when two id lists contain the same identifiers (they differ only in repetitions or
order), `update(a, ids1)` and `update(a, ids2)` return the same snapshot and leave the same
store, for every store; and applying `update(a, ids1)` twice gives the same store and
snapshot as applying it once. -/
theorem update_same_ids (s : storage) (a : Bool) (ids1 ids2 : List Int)
    (h : ∀ x, x ∈ ids1 ↔ x ∈ ids2) :
    s.update a ids1 = s.update a ids2 ∧
    (s.update a ids1).1.update a ids1 = s.update a ids1 := by
  constructor
  · rw [update_eq s a ids1, update_eq s a ids2, markFirst_congr a ids1 ids2 [] s.data h]
  · rw [update_eq (s.update a ids1).1, update_eq s a ids1, markFirst_markFirst]

/-- Instance of `update_same_ids`: the ids `2, 2, 1` against `1, 2` on three records. -/
theorem update_same_ids_witness :
    (∀ x : Int, x ∈ [2, 2, 1] ↔ x ∈ [1, 2]) ∧
      (⟨[⟨1, "blue", false⟩, ⟨2, "green", false⟩, ⟨3, "red", false⟩]⟩ : storage).update true
          [2, 2, 1] =
        (⟨[⟨1, "blue", false⟩, ⟨2, "green", false⟩, ⟨3, "red", false⟩]⟩ : storage).update true
          [1, 2] :=
  have h : ∀ x : Int, x ∈ [2, 2, 1] ↔ x ∈ [1, 2] := by
    intro x
    simp only [List.mem_cons, List.mem_singleton, List.not_mem_nil, or_false]
    constructor
    · rintro (h | h | h)
      · exact Or.inr h
      · exact Or.inr h
      · exact Or.inl h
    · rintro (h | h)
      · exact Or.inr (Or.inr h)
      · exact Or.inl h
  ⟨h, (update_same_ids _ true [2, 2, 1] [1, 2] h).1⟩

end BulkUpdate

namespace Hx

/-! ## Evaluation on concrete inputs -/

example : CanonicalMIMEHeaderKey "HX-Request" = "Hx-Request" ∧
    CanonicalMIMEHeaderKey "hx-current-url" = "Hx-Current-Url" ∧
    CanonicalMIMEHeaderKey "hX-tRIGGER-nAME" = "Hx-Trigger-Name" ∧
    CanonicalMIMEHeaderKey "HX Request" = "HX Request" := by decide

example : requestHeaderHXTriggerID = "Hx-Trigger" ∧ requestHeaderHXBooted = "Hx-Boosted" := by
  decide

example : IsRequest ⟨Header.empty.Set "hx-request" "true"⟩ = true ∧
    IsRequest ⟨Header.empty.Set "HX-Request" "True"⟩ = false ∧
    IsRequest ⟨Header.empty⟩ = false := by decide

example : Prompt ⟨Header.empty.Set "HX-Prompt" "yes"⟩ = ("yes", true) ∧
    Prompt ⟨fun k => if k = "Hx-Prompt" then some ["a", "b"] else none⟩ = ("", false) ∧
    Prompt ⟨fun k => if k = "Hx-Prompt" then some [] else none⟩ = ("", false) := by decide

example : SetTriggerEvents Header.empty ["a", "b"] "Hx-Trigger" = some ["a, b"] := by decide

example : (NewEventsWithData jsonMarshal "a" (.bool true)).Set jsonMarshal "b" .chan
    = { data := [("a", "true")], err := some "json: unsupported type: chan int" } := by decide

example : NewEventsWithData jsonMarshal "a" .chan = { data := [], err := none } := by decide

/-! ## Lemmas on characters and canonical header keys -/

theorem toNat_ofNat_of_lt (n : Nat) (h : n < 55296) : (Char.ofNat n).toNat = n := by
  have hv : n.isValidChar := Or.inl h
  unfold Char.ofNat
  rw [dif_pos hv]
  simp only [Char.toNat, Char.ofNatAux]
  show (UInt32.ofNat' n _).toNat = n
  simp [UInt32.ofNat', UInt32.toNat]

theorem char_toNat_inj (c d : Char) (h : c.toNat = d.toNat) : c = d := by
  rw [← Char.ofNat_toNat c, ← Char.ofNat_toNat d, h]

theorem isUpper_iff (c : Char) : c.isUpper = true ↔ 65 ≤ c.toNat ∧ c.toNat ≤ 90 := by
  simp [Char.isUpper, Char.toNat, UInt32.le_def, UInt32.toNat, BitVec.le_def]

theorem isLower_iff (c : Char) : c.isLower = true ↔ 97 ≤ c.toNat ∧ c.toNat ≤ 122 := by
  simp [Char.isLower, Char.toNat, UInt32.le_def, UInt32.toNat, BitVec.le_def]

theorem toLower_toNat (c : Char) :
    c.toLower.toNat = if 65 ≤ c.toNat ∧ c.toNat ≤ 90 then c.toNat + 32 else c.toNat := by
  unfold Char.toLower
  by_cases h : 65 ≤ c.toNat ∧ c.toNat ≤ 90
  · simp only [ge_iff_le, h, and_self, if_true]
    exact toNat_ofNat_of_lt _ (by omega)
  · simp only [ge_iff_le, h, if_false]

theorem toUpper_toNat (c : Char) :
    c.toUpper.toNat = if 97 ≤ c.toNat ∧ c.toNat ≤ 122 then c.toNat - 32 else c.toNat := by
  unfold Char.toUpper
  by_cases h : 97 ≤ c.toNat ∧ c.toNat ≤ 122
  · simp only [ge_iff_le, h, and_self, if_true]
    exact toNat_ofNat_of_lt _ (by omega)
  · simp only [ge_iff_le, h, if_false]

theorem toNat_of_toLower_eq (c d : Char) (h : c.toLower = d.toLower) :
    c.toNat = d.toNat ∨ (65 ≤ c.toNat ∧ c.toNat ≤ 90 ∧ d.toNat = c.toNat + 32) ∨
      (65 ≤ d.toNat ∧ d.toNat ≤ 90 ∧ c.toNat = d.toNat + 32) := by
  have h1 := congrArg Char.toNat h
  rw [toLower_toNat, toLower_toNat] at h1
  split_ifs at h1 <;> omega

theorem toUpper_eq_of_toLower_eq (c d : Char) (h : c.toLower = d.toLower) :
    c.toUpper = d.toUpper := by
  apply char_toNat_inj
  rw [toUpper_toNat, toUpper_toNat]
  have := toNat_of_toLower_eq c d h
  split_ifs <;> omega

theorem valid_of_letter (c : Char) (h : c.isUpper = true ∨ c.isLower = true) :
    validHeaderFieldByte c = true := by
  rcases h with h | h <;> simp [validHeaderFieldByte, Char.isAlphanum, Char.isAlpha, h]

theorem valid_eq_of_toLower_eq (c d : Char) (h : c.toLower = d.toLower) :
    validHeaderFieldByte c = validHeaderFieldByte d := by
  rcases toNat_of_toLower_eq c d h with h1 | ⟨h1, h2, h3⟩ | ⟨h1, h2, h3⟩
  · rw [char_toNat_inj c d h1]
  · rw [valid_of_letter c (Or.inl ((isUpper_iff c).2 ⟨h1, h2⟩)),
      valid_of_letter d (Or.inr ((isLower_iff d).2 (by omega)))]
  · rw [valid_of_letter d (Or.inl ((isUpper_iff d).2 ⟨h1, h2⟩)),
      valid_of_letter c (Or.inr ((isLower_iff c).2 (by omega)))]

theorem canonicalLoop_congr (upper : Bool) (cs ds : List Char)
    (h : cs.map Char.toLower = ds.map Char.toLower) :
    canonicalLoop upper cs = canonicalLoop upper ds := by
  induction cs generalizing upper ds with
  | nil =>
    cases ds with
    | nil => rfl
    | cons d ds => simp at h
  | cons c cs ih =>
    cases ds with
    | nil => simp at h
    | cons d ds =>
      simp only [List.map_cons, List.cons.injEq] at h
      have hu := toUpper_eq_of_toLower_eq c d h.1
      simp only [canonicalLoop, hu, h.1]
      rw [ih _ ds h.2]

theorem all_valid_congr (cs ds : List Char) (h : cs.map Char.toLower = ds.map Char.toLower) :
    cs.all validHeaderFieldByte = ds.all validHeaderFieldByte := by
  induction cs generalizing ds with
  | nil =>
    cases ds with
    | nil => rfl
    | cons d ds => simp at h
  | cons c cs ih =>
    cases ds with
    | nil => simp at h
    | cons d ds =>
      simp only [List.map_cons, List.cons.injEq] at h
      simp only [List.all_cons, valid_eq_of_toLower_eq c d h.1, ih ds h.2]

theorem canonical_of_sameLetters (a b : String) (h : sameLetters a b)
    (hb : b.toList.all validHeaderFieldByte = true) :
    CanonicalMIMEHeaderKey a = CanonicalMIMEHeaderKey b := by
  unfold sameLetters at h
  have ha : a.toList.all validHeaderFieldByte = true := by
    rw [all_valid_congr _ _ h]; exact hb
  simp only [CanonicalMIMEHeaderKey, ha, hb, if_true]
  rw [canonicalLoop_congr true _ _ h]

/-! ## Lemmas on the request accessors -/

theorem booleanHeaderIsTrue_iff (h : Header) (name : String) :
    booleanHeaderIsTrue h name = true ↔ ∃ values, h name = some values ∧ "true" ∈ values := by
  cases hv : h name with
  | none => simp [booleanHeaderIsTrue, hv]
  | some values => simp [booleanHeaderIsTrue, hv]

theorem exactlyOneHeaderValue_iff (h : Header) (name v : String) :
    exactlyOneHeaderValue h name = (v, true) ↔ h name = some [v] := by
  cases hv : h name with
  | none => simp [exactlyOneHeaderValue, hv]
  | some values =>
    match values with
    | [] => simp [exactlyOneHeaderValue, hv]
    | [x] => simp [exactlyOneHeaderValue, hv]
    | x :: y :: rest => simp [exactlyOneHeaderValue, hv]

theorem exactlyOneHeaderValue_none (h : Header) (name : String)
    (hn : h name = none ∨ h name = some [] ∨ ∃ a b rest, h name = some (a :: b :: rest)) :
    exactlyOneHeaderValue h name = ("", false) := by
  rcases hn with hv | hv | ⟨a, b, rest, hv⟩ <;> simp [exactlyOneHeaderValue, hv]

theorem requestHeader_keys :
    requestHeaderHXBooted = "Hx-Boosted" ∧ requestHeaderHXCurrentURL = "Hx-Current-Url" ∧
    requestHeaderHistoryRestoreRequest = "Hx-History-Restore-Request" ∧
    requestHeaderHXPrompt = "Hx-Prompt" ∧ requestHeaderHXRequest = "Hx-Request" ∧
    requestHeaderHXTarget = "Hx-Target" ∧ requestHeaderHXTriggerName = "Hx-Trigger-Name" ∧
    requestHeaderHXTriggerID = "Hx-Trigger" := by decide

theorem Header.Set_same (h : Header) (key value : String) :
    (h.Set key value) (CanonicalMIMEHeaderKey key) = some [value] := by
  simp [Header.Set]

theorem Header.Set_other (h : Header) (key value k : String)
    (hk : k ≠ CanonicalMIMEHeaderKey key) : (h.Set key value) k = h k := by
  simp [Header.Set, hk]

/-! ## The request accessors: claims C13, C14, C17, C18 -/

/-- C13: each single-value accessor (`Prompt`, `Target`, `TriggerName`, `TriggerID`) returns
`(v, true)` exactly when the header map holds its (canonical) header with the one-element
value list `[v]`; when the header is missing, has an empty value list, or has two or more
values, it returns `("", false)`. -/
theorem single_value_accessors (req : Request) :
    ∀ p ∈ [(Prompt, "Hx-Prompt"), (Target, "Hx-Target"), (TriggerName, "Hx-Trigger-Name"),
        (TriggerID, "Hx-Trigger")],
      (∀ v, p.1 req = (v, true) ↔ req.Header p.2 = some [v]) ∧
      ((req.Header p.2 = none ∨ req.Header p.2 = some [] ∨
          ∃ a b rest, req.Header p.2 = some (a :: b :: rest)) → p.1 req = ("", false)) := by
  obtain ⟨_, _, _, k4, _, k6, k7, k8⟩ := requestHeader_keys
  intro p hp
  simp only [List.mem_cons, List.mem_singleton, List.not_mem_nil, or_false] at hp
  rcases hp with rfl | rfl | rfl | rfl
  · exact ⟨fun v => by simp only [Prompt, k4, exactlyOneHeaderValue_iff],
      fun hn => by simp only [Prompt, k4]; exact exactlyOneHeaderValue_none _ _ hn⟩
  · exact ⟨fun v => by simp only [Target, k6, exactlyOneHeaderValue_iff],
      fun hn => by simp only [Target, k6]; exact exactlyOneHeaderValue_none _ _ hn⟩
  · exact ⟨fun v => by simp only [TriggerName, k7, exactlyOneHeaderValue_iff],
      fun hn => by simp only [TriggerName, k7]; exact exactlyOneHeaderValue_none _ _ hn⟩
  · exact ⟨fun v => by simp only [TriggerID, k8, exactlyOneHeaderValue_iff],
      fun hn => by simp only [TriggerID, k8]; exact exactlyOneHeaderValue_none _ _ hn⟩

/-- Instance of `single_value_accessors`: `Prompt` on a request with one `HX-Prompt` value. -/
theorem single_value_accessors_witness :
    (Prompt, "Hx-Prompt") ∈ [(Prompt, "Hx-Prompt"), (Target, "Hx-Target"),
        (TriggerName, "Hx-Trigger-Name"), (TriggerID, "Hx-Trigger")] ∧
      Prompt ⟨Header.empty.Set "HX-Prompt" "yes"⟩ = ("yes", true) :=
  ⟨List.mem_cons_self _ _,
    ((single_value_accessors ⟨Header.empty.Set "HX-Prompt" "yes"⟩ (Prompt, "Hx-Prompt")
      (List.mem_cons_self _ _)).1 "yes").2 (by decide)⟩

/-- C14: `IsRequest`, `IsHistoryRestoreRequest` and `IsBoosted` report true exactly when the
header map holds their (canonical) header and one of its values is the string `"true"`;
so they are false when the header is absent or all its values are other strings. -/
theorem boolean_accessors (req : Request) :
    ∀ p ∈ [(IsRequest, "Hx-Request"),
        (IsHistoryRestoreRequest, "Hx-History-Restore-Request"), (IsBoosted, "Hx-Boosted")],
      (p.1 req = true ↔ ∃ values, req.Header p.2 = some values ∧ "true" ∈ values) ∧
      (req.Header p.2 = none → p.1 req = false) ∧
      (∀ values, req.Header p.2 = some values → "true" ∉ values → p.1 req = false) := by
  obtain ⟨k1, _, k3, _, k5, _, _, _⟩ := requestHeader_keys
  have key : ∀ name : String,
      (booleanHeaderIsTrue req.Header name = true ↔
        ∃ values, req.Header name = some values ∧ "true" ∈ values) ∧
      (req.Header name = none → booleanHeaderIsTrue req.Header name = false) ∧
      (∀ values, req.Header name = some values → "true" ∉ values →
        booleanHeaderIsTrue req.Header name = false) := by
    intro name
    refine ⟨booleanHeaderIsTrue_iff _ _, ?_, ?_⟩
    · intro hn
      simp [booleanHeaderIsTrue, hn]
    · intro values hv hnot
      simp [booleanHeaderIsTrue, hv, hnot]
  intro p hp
  simp only [List.mem_cons, List.mem_singleton, List.not_mem_nil, or_false] at hp
  rcases hp with rfl | rfl | rfl
  · simpa only [IsRequest, k5] using key "Hx-Request"
  · simpa only [IsHistoryRestoreRequest, k3] using key "Hx-History-Restore-Request"
  · simpa only [IsBoosted, k1] using key "Hx-Boosted"

/-- Instance of `boolean_accessors`: `IsRequest` on a request whose `HX-Request` values are
`"false"` and `"true"`. -/
theorem boolean_accessors_witness :
    (IsRequest, "Hx-Request") ∈ [(IsRequest, "Hx-Request"),
        (IsHistoryRestoreRequest, "Hx-History-Restore-Request"), (IsBoosted, "Hx-Boosted")] ∧
      IsRequest ⟨fun k => if k = "Hx-Request" then some ["false", "true"] else none⟩ = true :=
  ⟨List.mem_cons_self _ _,
    ((boolean_accessors ⟨fun k => if k = "Hx-Request" then some ["false", "true"] else none⟩
      (IsRequest, "Hx-Request") (List.mem_cons_self _ _)).1).2
      ⟨["false", "true"], by decide, by decide⟩⟩

/-- C17: `CurrentURL` returns its own error whenever the `HX-Current-URL` header is missing,
has no value, or has two or more values, and when the header has exactly one value it
returns exactly the result, URL or error, of `url.Parse` on that value. -/
theorem CurrentURL_spec {U : Type} (urlParse : String → Except String U) (req : Request) :
    ((req.Header "Hx-Current-Url" = none ∨ req.Header "Hx-Current-Url" = some [] ∨
        ∃ a b rest, req.Header "Hx-Current-Url" = some (a :: b :: rest)) →
      CurrentURL urlParse req =
        .error "header Hx-Current-Url is not set exactly one time") ∧
    (∀ v, req.Header "Hx-Current-Url" = some [v] → CurrentURL urlParse req = urlParse v) := by
  obtain ⟨_, k2, _⟩ := requestHeader_keys
  constructor
  · intro hn
    have := exactlyOneHeaderValue_none req.Header "Hx-Current-Url" hn
    simp only [CurrentURL, k2, this]
    rfl
  · intro v hv
    have := (exactlyOneHeaderValue_iff req.Header "Hx-Current-Url" v).2 hv
    simp only [CurrentURL, k2, this]
    rfl

/-- Instance of `CurrentURL_spec`: one `HX-Current-URL` value, parsed by a parser that
accepts every string. -/
theorem CurrentURL_spec_witness :
    (⟨Header.empty.Set "HX-Current-URL" "/page"⟩ : Request).Header "Hx-Current-Url" =
        some ["/page"] ∧
      CurrentURL (fun s => (Except.ok s : Except String String))
        ⟨Header.empty.Set "HX-Current-URL" "/page"⟩ = .ok "/page" :=
  ⟨by decide,
    (CurrentURL_spec (fun s => (Except.ok s : Except String String))
      ⟨Header.empty.Set "HX-Current-URL" "/page"⟩).2 "/page" (by decide)⟩

/-- C18: the accessors look headers up under the canonical name, so the lookup does not
depend on the letter case used with `Header.Set`: after `Set(name, "true")` for any
letter-casing `name` of `hx-request`, `IsRequest` is true, and after `Set(name, v)` for any
letter-casing `name` of `hx-prompt`, `Prompt` returns `(v, true)`. -/
theorem lookup_ignores_case (h : Header) (name v : String) :
    (sameLetters name "hx-request" → IsRequest ⟨h.Set name "true"⟩ = true) ∧
    (sameLetters name "hx-prompt" → Prompt ⟨h.Set name v⟩ = (v, true)) := by
  constructor
  · intro hs
    have hc : CanonicalMIMEHeaderKey name = "Hx-Request" := by
      rw [canonical_of_sameLetters name "hx-request" hs (by decide)]
      decide
    have hk : requestHeaderHXRequest = "Hx-Request" := by decide
    simp only [IsRequest, hk]
    rw [booleanHeaderIsTrue_iff]
    exact ⟨["true"], by rw [← hc]; exact Header.Set_same h name "true", by simp⟩
  · intro hs
    have hc : CanonicalMIMEHeaderKey name = "Hx-Prompt" := by
      rw [canonical_of_sameLetters name "hx-prompt" hs (by decide)]
      decide
    have hk : requestHeaderHXPrompt = "Hx-Prompt" := by decide
    simp only [Prompt, hk]
    rw [exactlyOneHeaderValue_iff, ← hc]
    exact Header.Set_same h name v

/-- Instance of `lookup_ignores_case`: the name written `hX-ReQuEsT`. -/
theorem lookup_ignores_case_witness :
    sameLetters "hX-ReQuEsT" "hx-request" ∧
      IsRequest ⟨Header.empty.Set "hX-ReQuEsT" "true"⟩ = true :=
  ⟨by decide, (lookup_ignores_case Header.empty "hX-ReQuEsT" "").1 (by decide)⟩

/-! ## Lemmas on the response setters -/

theorem triggeredEventNames_nil (res : Header) (name : String) :
    triggeredEventNames res name [] = res := by
  simp [triggeredEventNames]

theorem triggeredEventNames_cons (res : Header) (name e : String) (es : List String) :
    triggeredEventNames res name (e :: es) = res.Set name (", ".intercalate (e :: es)) := by
  simp [triggeredEventNames]

/-- For every header name, `triggeredEventNames` with no event leaves the header map
unchanged, and with at least one event sets the entry of the canonical name to the single
value joining the names in order with `", "` and leaves every other entry unchanged. -/
theorem triggeredEventNames_spec (res : Header) (name : String) (events : List String) :
    (events = [] → triggeredEventNames res name events = res) ∧
    (events ≠ [] →
      (triggeredEventNames res name events) (CanonicalMIMEHeaderKey name) =
          some [", ".intercalate events] ∧
        ∀ k, k ≠ CanonicalMIMEHeaderKey name →
          (triggeredEventNames res name events) k = res k) := by
  constructor
  · rintro rfl
    exact triggeredEventNames_nil res name
  · intro hne
    cases events with
    | nil => exact absurd rfl hne
    | cons e es =>
      rw [triggeredEventNames_cons]
      exact ⟨Header.Set_same _ _ _, fun k hk => Header.Set_other _ _ _ k hk⟩

/-- The plain and the after-settle setters write `Hx-Trigger` and `Hx-Trigger-After-Settle`:
no event leaves the map unchanged, one or more events set that entry to the joined names
and change no other entry. -/
theorem SetTriggerEvents_spec (res : Header) (events : List String) :
    (events = [] → SetTriggerEvents res events = res ∧
      SetTriggerAfterSettleEvents res events = res) ∧
    (events ≠ [] →
      (SetTriggerEvents res events) "Hx-Trigger" = some [", ".intercalate events] ∧
      (∀ k, k ≠ "Hx-Trigger" → (SetTriggerEvents res events) k = res k) ∧
      (SetTriggerAfterSettleEvents res events) "Hx-Trigger-After-Settle" =
        some [", ".intercalate events] ∧
      (∀ k, k ≠ "Hx-Trigger-After-Settle" →
        (SetTriggerAfterSettleEvents res events) k = res k)) := by
  have c1 : CanonicalMIMEHeaderKey responseHeaderTrigger = "Hx-Trigger" := by decide
  have c2 : CanonicalMIMEHeaderKey responseHeaderTriggerAfterSettle =
      "Hx-Trigger-After-Settle" := by decide
  have s1 := triggeredEventNames_spec res responseHeaderTrigger events
  have s2 := triggeredEventNames_spec res responseHeaderTriggerAfterSettle events
  rw [c1] at s1
  rw [c2] at s2
  exact ⟨fun h => ⟨s1.1 h, s2.1 h⟩,
    fun h => ⟨(s1.2 h).1, (s1.2 h).2, (s2.2 h).1, (s2.2 h).2⟩⟩

theorem EventMap.get_delete (m : EventMap) (key : String) :
    EventMap.get (EventMap.delete m key) key = none := by
  induction m with
  | nil => rfl
  | cons p ps ih =>
    by_cases h : p.1 = key
    · simpa [EventMap.delete, EventMap.get, h] using ih
    · have hb : (key == p.1) = false := by
        simpa using fun e => h e.symm
      simp only [EventMap.delete, EventMap.get] at ih ⊢
      simp [List.filter_cons, h, List.lookup, hb, ih]

theorem EventMap.get_set (m : EventMap) (key value : String) :
    EventMap.get (EventMap.set m key value) key = some value := by
  simp [EventMap.set, EventMap.get, List.lookup]

theorem Set_of_err (α : Type) (marshal : α → Except String String) (e : EventsWithData)
    (err : String) (he : e.err = some err) (event : String) (data : α) :
    e.Set marshal event data = e := by
  simp [EventsWithData.Set, he]

theorem Set_of_marshal_error (α : Type) (marshal : α → Except String String)
    (e : EventsWithData) (he : e.err = none) (event : String) (data : α) (err : String)
    (hm : marshal data = .error err) :
    e.Set marshal event data = { data := EventMap.delete e.data event, err := some err } := by
  simp [EventsWithData.Set, he, hm]

theorem Set_of_marshal_ok (α : Type) (marshal : α → Except String String)
    (e : EventsWithData) (he : e.err = none) (event : String) (data : α) (buf : String)
    (hm : marshal data = .ok buf) :
    e.Set marshal event data = { data := EventMap.set e.data event buf, err := none } := by
  simp [EventsWithData.Set, he, hm]

theorem MarshalJSON_of_err (mm : EventMap → Except String String) (e : EventsWithData)
    (err : String) (he : e.err = some err) : e.MarshalJSON mm = .error err := by
  simp [EventsWithData.MarshalJSON, he]

theorem MarshalJSON_of_no_err (mm : EventMap → Except String String) (e : EventsWithData)
    (he : e.err = none) : e.MarshalJSON mm = mm e.data := by
  simp only [EventsWithData.MarshalJSON, he]
  cases mm e.data <;> rfl

theorem setChain_keeps_err (α : Type) (marshal : α → Except String String)
    (e : EventsWithData) (calls : List (String × α)) (err : String) (he : e.err = some err) :
    setChain marshal e calls = e := by
  induction calls with
  | nil => rfl
  | cons c cs ih =>
    simp only [setChain, List.foldl_cons] at ih ⊢
    rw [Set_of_err α marshal e err he]
    exact ih

/-- In a chain of `Set` calls on a value, a payload whose encoding fails leaves an error in
the resulting value, and `MarshalJSON` and `SetTriggerWithData` then return an error. -/
theorem setChain_failure (α : Type) (marshal : α → Except String String)
    (mm : EventMap → Except String String) (e : EventsWithData) (calls : List (String × α))
    (hfail : ∃ c ∈ calls, ∃ err, marshal c.2 = .error err) :
    ∃ err, (setChain marshal e calls).err = some err ∧
      (setChain marshal e calls).MarshalJSON mm = .error err ∧
      ∀ res, SetTriggerWithData mm res (setChain marshal e calls) =
        (res, some ("json: error calling MarshalJSON for type hx.EventsWithData: " ++ err)) := by
  have key : ∃ err, (setChain marshal e calls).err = some err := by
    induction calls generalizing e with
    | nil =>
      obtain ⟨c, hc, _⟩ := hfail
      cases hc
    | cons c cs ih =>
      cases he : e.err with
      | some err0 =>
        rw [setChain_keeps_err α marshal e _ err0 he]
        exact ⟨err0, he⟩
      | none =>
        show ∃ err, (setChain marshal (e.Set marshal c.1 c.2) cs).err = some err
        cases hm : marshal c.2 with
        | error err1 =>
          have h1 := Set_of_marshal_error α marshal e he c.1 c.2 err1 hm
          rw [setChain_keeps_err α marshal _ cs err1 (by rw [h1])]
          exact ⟨err1, by rw [h1]⟩
        | ok buf =>
          apply ih
          obtain ⟨c', hc', err', herr'⟩ := hfail
          rcases List.mem_cons.1 hc' with rfl | hin
          · rw [hm] at herr'
            cases herr'
          · exact ⟨c', hin, err', herr'⟩
  obtain ⟨err, herr⟩ := key
  have hmj := MarshalJSON_of_err mm _ err herr
  refine ⟨err, herr, hmj, fun res => ?_⟩
  simp only [SetTriggerWithData, marshalJSONHeaderData, hmj]

/-! ## The response setters: claims C12, C15, C19, C20 -/

/-- C12: evaluation of the after-swap setters.  The constant `responseHeaderTriggerAfterSwap`
holds the after-settle name, so on the empty header map `SetTriggerAfterSwapEvents` with one
event leaves `Hx-Trigger-After-Swap` unset and sets `Hx-Trigger-After-Settle`; both
after-swap setters coincide with the after-settle setters on every input. -/
theorem afterSwap_writes_afterSettle :
    responseHeaderTriggerAfterSwap = "HX-Trigger-After-Settle" ∧
    (SetTriggerAfterSwapEvents Header.empty ["saved"]) "Hx-Trigger-After-Swap" = none ∧
    (SetTriggerAfterSwapEvents Header.empty ["saved"]) "Hx-Trigger-After-Settle" =
      some ["saved"] ∧
    Header.empty "Hx-Trigger-After-Settle" = none ∧
    (∀ res events, SetTriggerAfterSwapEvents res events =
      SetTriggerAfterSettleEvents res events) ∧
    (∀ mm res data, SetTriggerAfterSwapWithData mm res data =
      SetTriggerAfterSettleWithData mm res data) :=
  ⟨rfl, by decide, by decide, rfl, fun _ _ => rfl, fun _ _ _ => rfl⟩

/-- C15: evaluation of `NewEventsWithData` on a payload that cannot be encoded (a channel).
The returned value has no error and an empty event map, so `MarshalJSON` returns the
encoding of the empty map, `SetTriggerWithData` sets the header to it, and a later `Set` is
accepted: the failure of the first event is not reported at finalization. -/
theorem NewEventsWithData_drops_error :
    jsonMarshal GoValue.chan = .error "json: unsupported type: chan int" ∧
    NewEventsWithData jsonMarshal "a" GoValue.chan = { data := [], err := none } ∧
    (∀ mm : EventMap → Except String String,
      (NewEventsWithData jsonMarshal "a" GoValue.chan).MarshalJSON mm = mm []) ∧
    (NewEventsWithData jsonMarshal "a" GoValue.chan).MarshalJSON (fun _ => .ok "{}") =
      .ok "{}" ∧
    (SetTriggerWithData (fun _ => .ok "{}") Header.empty
      (NewEventsWithData jsonMarshal "a" GoValue.chan)).2 = none ∧
    (NewEventsWithData jsonMarshal "a" GoValue.chan).Set jsonMarshal "b" (GoValue.bool true) =
      { data := [("b", "true")], err := none } :=
  ⟨rfl, by decide, fun mm => MarshalJSON_of_no_err mm _ rfl, rfl, rfl, by decide⟩

/-- C19: evaluation of `SetTriggerAfterSwapEvents` on a header map that holds
`Hx-Trigger-After-Settle: ["keep"]` and no `Hx-Trigger-After-Swap`, with the one event
`"saved"`: after the call `Hx-Trigger-After-Swap` is still unset and the after-settle entry
is overwritten by `["saved"]`, so the after-swap variant does not replace the values of its
own header and changes another header. -/
theorem afterSwapEvents_overwrites_afterSettle :
    (fun k => if k = "Hx-Trigger-After-Settle" then some ["keep"] else none : Header)
        "Hx-Trigger-After-Settle" = some ["keep"] ∧
    (fun k => if k = "Hx-Trigger-After-Settle" then some ["keep"] else none : Header)
        "Hx-Trigger-After-Swap" = none ∧
    (SetTriggerAfterSwapEvents
      (fun k => if k = "Hx-Trigger-After-Settle" then some ["keep"] else none) ["saved"])
        "Hx-Trigger-After-Swap" = none ∧
    (SetTriggerAfterSwapEvents
      (fun k => if k = "Hx-Trigger-After-Settle" then some ["keep"] else none) ["saved"])
        "Hx-Trigger-After-Settle" = some ["saved"] :=
  ⟨by decide, by decide, by decide, by decide⟩

/-- C20: on a value that carries an error, `Set` returns the value unchanged (same error,
same event map) for every event and payload, and `MarshalJSON` on the result returns that
error; on a value without error, a `Set` whose payload fails to encode returns a value that
carries the encoder's error and whose map has no entry for the event, also when an earlier
successful `Set` had stored one. -/
theorem Set_error_behaviour (α : Type) (marshal : α → Except String String)
    (mm : EventMap → Except String String) (e : EventsWithData) :
    (∀ err, e.err = some err → ∀ event data,
      e.Set marshal event data = e ∧
        (e.Set marshal event data).MarshalJSON mm = .error err) ∧
    (e.err = none → ∀ event data err, marshal data = .error err →
      (e.Set marshal event data).err = some err ∧
        EventMap.get (e.Set marshal event data).data event = none ∧
        (e.Set marshal event data).MarshalJSON mm = .error err) ∧
    (e.err = none → ∀ event good bad buf err, marshal good = .ok buf →
      marshal bad = .error err →
      EventMap.get (e.Set marshal event good).data event = some buf ∧
        EventMap.get ((e.Set marshal event good).Set marshal event bad).data event = none ∧
        ((e.Set marshal event good).Set marshal event bad).err = some err) := by
  refine ⟨?_, ?_, ?_⟩
  · intro err he event data
    rw [Set_of_err α marshal e err he]
    exact ⟨rfl, MarshalJSON_of_err mm e err he⟩
  · intro he event data err hm
    rw [Set_of_marshal_error α marshal e he event data err hm]
    exact ⟨rfl, EventMap.get_delete _ _, MarshalJSON_of_err mm _ err rfl⟩
  · intro he event good bad buf err hg hb
    rw [Set_of_marshal_ok α marshal e he event good buf hg]
    rw [Set_of_marshal_error α marshal _ rfl event bad err hb]
    exact ⟨EventMap.get_set _ _ _, EventMap.get_delete _ _, rfl⟩

/-- Instance of `Set_error_behaviour`: event `b` stored, then set again with a channel. -/
theorem Set_error_behaviour_witness :
    (NewEventsWithData jsonMarshal "a" (GoValue.bool true)).err = none ∧
      jsonMarshal (GoValue.bool false) = .ok "false" ∧
      jsonMarshal GoValue.chan = .error "json: unsupported type: chan int" ∧
      EventMap.get
        (((NewEventsWithData jsonMarshal "a" (GoValue.bool true)).Set jsonMarshal "b"
          (GoValue.bool false)).Set jsonMarshal "b" GoValue.chan).data "b" = none :=
  ⟨rfl, rfl, rfl,
    ((Set_error_behaviour GoValue jsonMarshal (fun _ => .ok "{}")
      (NewEventsWithData jsonMarshal "a" (GoValue.bool true))).2.2 rfl "b"
      (GoValue.bool false) GoValue.chan "false" "json: unsupported type: chan int"
      rfl rfl).2.1⟩

end Hx
